import Mathlib

/-!
Verification development for the sourcetracker2 Gibbs-sampler pipeline.

The repository ships two source files under scrutiny here:
`sourcetracker/_cli/gibbs.py` (the `gibbs` command: option handling, file
side effects, the diagnostics block and the plotting calls) and
`sourcetracker/_plot.py` (the `ST_graphs` class with its keyword
parameters).  The sampler core (`gibbs_helper`, rarefaction, the chains,
the aggregator) is not part of the shipped sources; where a claim depends
on it we model the missing component from the specification, and each such
definition is marked `Modelled from the spec:` in its doc comment.

The CLI's observable behaviour is embedded as explicit state passing over
an abstract file system (files and directories as lists of path names),
and Python keyword-argument binding is embedded as a lookup of each
keyword in the callee's declared parameter list.
-/

namespace SourceTracker

/-- Error taxonomy of the system (spec section 7) together with the Python
runtime errors the CLI glue can raise (`TypeError` for an unexpected
keyword argument, `FileNotFoundError` from `os.remove` / `np.load`). -/
inductive STError where
  | tableMismatch
  | invalidMetadata
  | insufficientDepth
  | emptySource
  | degenerateModel
  | valueError
  | typeError (kw : String)
  | fileNotFound (path : String)
deriving DecidableEq

/-- Abstract file system: the plain files and the directories that exist,
each identified by its path name. -/
structure FS where
  files : List String
  dirs : List String
deriving DecidableEq

/-- A plain file exists. -/
def hasFile (fs : FS) (p : String) : Bool := fs.files.contains p

/-- A directory exists. -/
def hasDir (fs : FS) (p : String) : Bool := fs.dirs.contains p

/-- `os.mkdir`: creates a directory. -/
def osMkdir (fs : FS) (p : String) : FS := ⟨fs.files, p :: fs.dirs⟩

/-- Writing a plain file (`DataFrame.to_csv`, `plt.savefig`). -/
def fsWrite (fs : FS) (p : String) : FS := ⟨p :: fs.files, fs.dirs⟩

/-- `os.remove`: deletes a plain file, raising `FileNotFoundError` when the
file does not exist. -/
def osRemove (fs : FS) (p : String) : Except STError FS :=
  if hasFile fs p then .ok ⟨fs.files.filter (fun q => q ≠ p), fs.dirs⟩
  else .error (.fileNotFound p)

/-- `np.load`: reads a plain file, raising `FileNotFoundError` when the
file does not exist. -/
def npLoad (fs : FS) (p : String) : Except STError Unit :=
  if hasFile fs p then .ok () else .error (.fileNotFound p)

/-- Embeds the opening of the `gibbs` command (`gibbs.py` lines 187-202):
`os.mkdir(output_dir)` runs first, then the metadata and feature table are
loaded and `gibbs_helper` is invoked, which validates the configuration
and data eagerly, before any chain starts (the helper itself is outside
the shipped sources; its eager validation is Modelled from the spec:
section 7).  The validation outcome is the parameter `vErr`.  Returns the
error surfaced (if any), the file system after the command stops, and
whether any chain was started. -/
def gibbsOpen (fs : FS) (outputDir : String) (vErr : Option STError) :
    Option STError × FS × Bool :=
  let fs1 := osMkdir fs outputDir
  match vErr with
  | some e => (some e, fs1, false)
  | none => (none, fs1, true)

/-- Abstract file-system effects performed by a code region. -/
inductive Eff where
  | mkdirE (p : String)
  | readE (p : String)
  | writeE (p : String)
  | removeE (p : String)
deriving DecidableEq

/-- The file effects of the diagnostics hand-off and the cleanup in
`gibbs.py` lines 232-236 and 285-287: when `--diagnostics` is passed the
command creates the diagnostics directory and obtains the sampler's trace
by loading the intermediate files `envcounts.npy`, `sink_ids.npy` and
`source_ids.npy` from disk; the three files are removed unconditionally at
the end. -/
def diagHandoffEffects (outputDir : String) (diagnostics : Bool) : List Eff :=
  (if diagnostics then
    [Eff.mkdirE (outputDir ++ "diagnostics"),
     Eff.readE "envcounts.npy",
     Eff.readE "sink_ids.npy",
     Eff.readE "source_ids.npy"]
   else []) ++
  [Eff.removeE "envcounts.npy",
   Eff.removeE "sink_ids.npy",
   Eff.removeE "source_ids.npy"]

/-- The three unconditional `os.remove` calls closing the `gibbs` command
(`gibbs.py` lines 285-287), with Python exception propagation made
explicit. -/
def removeTemps (fs : FS) : Except STError FS :=
  match osRemove fs "envcounts.npy" with
  | .error e => .error e
  | .ok fs3 =>
    match osRemove fs3 "sink_ids.npy" with
    | .error e => .error e
    | .ok fs4 => osRemove fs4 "source_ids.npy"

/-- The diagnostics block of the `gibbs` command (`gibbs.py` lines
232-283): create the diagnostics directory, `np.load` the three
intermediate arrays, write the summary table.  The per-sink png writes
inside the diagnostics directory are elided: they never touch the three
temp files. -/
def diagBlock (outputDir : String) (fs : FS) : Except STError FS :=
  let fs1 := osMkdir fs (outputDir ++ "diagnostics")
  match npLoad fs1 "envcounts.npy" with
  | .error e => .error e
  | .ok _ =>
    match npLoad fs1 "sink_ids.npy" with
    | .error e => .error e
    | .ok _ =>
      match npLoad fs1 "source_ids.npy" with
      | .error e => .error e
      | .ok _ => .ok (fsWrite fs1 (outputDir ++ "diagnostics/table.txt"))

/-- Embeds `gibbs.py` lines 232-287, the tail of the `gibbs` command: the
diagnostics block when `--diagnostics` was passed, followed by the three
unconditional `os.remove` calls. -/
def gibbsFinalize (outputDir : String) (diagnostics : Bool) (fs : FS) :
    Except STError FS :=
  match (if diagnostics then diagBlock outputDir fs else .ok fs) with
  | .error e => .error e
  | .ok fs2 => removeTemps fs2

/-- Keyword parameter names of `ST_graphs.ST_heatmap`
(`_plot.py` lines 38-39). -/
def heatmapParams : List String :=
  ["unknowns", "annot", "xlabel", "ylabel", "vmax"]

/-- Keyword parameter names of `ST_graphs.ST_paired_heatmap`
(`_plot.py` lines 80-82). -/
def pairedHeatmapParams : List String :=
  ["normalized", "unknowns", "transpose", "annot", "ylabel", "heat_ratio"]

/-- Keyword parameter names of `ST_graphs.ST_Stacked_bar`
(`_plot.py` lines 209-210). -/
def stackedBarParams : List String :=
  ["unknowns", "x_lab", "y_lab", "coloring", "flipped"]

/-- Python keyword binding: a call site's keyword arguments bind iff every
keyword names a declared parameter; the first unexpected keyword raises
`TypeError`. -/
def kwBind (params : List String) (kwargs : List String) : Except STError Unit :=
  match kwargs.find? (fun k => !(params.contains k)) with
  | some k => .error (.typeError k)
  | none => .ok ()

/-- Keyword arguments at the `graphs.ST_heatmap` call site
(`gibbs.py` line 224). -/
def heatmapCallKwargs : List String := ["keep_unknowns"]

/-- Keyword arguments at the `graphs.ST_paired_heatmap` call site
(`gibbs.py` lines 226-228). -/
def pairedCallKwargs : List String :=
  ["keep_unknowns", "normalized", "transpose", "legend"]

/-- Keyword arguments at the `graphs.ST_Stacked_bar` call site
(`gibbs.py` lines 230-231). -/
def stackedCallKwargs : List String := ["keep_unknowns", "coloring", "flipped"]

/-- Default value of the `--no_heatmap` flag (`gibbs.py` line 133). -/
def noHeatmapDefault : Bool := true

/-- Embeds the plotting stage of the `gibbs` command
(`gibbs.py` lines 222-231): each plot call runs when its flag is set, and
its keyword arguments are bound against the callee's parameter list. -/
def plotStage (noHeatmap pairedHeatmap stackedBar : Bool) : Except STError Unit :=
  match (if noHeatmap then kwBind heatmapParams heatmapCallKwargs else .ok ()) with
  | .error e => .error e
  | .ok _ =>
    match (if pairedHeatmap then kwBind pairedHeatmapParams pairedCallKwargs
           else .ok ()) with
    | .error e => .error e
    | .ok _ =>
      if stackedBar then kwBind stackedBarParams stackedCallKwargs else .ok ()

/- ------------------------- helper lemmas ------------------------- -/

theorem hasFile_iff_mem {fs : FS} {p : String} :
    hasFile fs p = true ↔ p ∈ fs.files := by
  simp [hasFile]

theorem osRemove_ok_hasFile {fs fs2 : FS} {p : String}
    (h : osRemove fs p = .ok fs2) : hasFile fs p = true := by
  by_cases hp : hasFile fs p = true
  · exact hp
  · rw [osRemove, if_neg hp] at h
    cases h

theorem osRemove_ok_not_self {fs fs2 : FS} {p : String}
    (h : osRemove fs p = .ok fs2) : hasFile fs2 p = false := by
  by_cases hp : hasFile fs p = true
  · rw [osRemove, if_pos hp] at h
    cases h
    rw [Bool.eq_false_iff]
    intro hcon
    have hm := hasFile_iff_mem.mp hcon
    have := (List.mem_filter.mp hm).2
    simp at this
  · rw [osRemove, if_neg hp] at h
    cases h

theorem osRemove_ok_mono {fs fs2 : FS} {p q : String}
    (h : osRemove fs p = .ok fs2) (hq : hasFile fs2 q = true) :
    hasFile fs q = true := by
  by_cases hp : hasFile fs p = true
  · rw [osRemove, if_pos hp] at h
    cases h
    exact hasFile_iff_mem.mpr (List.mem_of_mem_filter (hasFile_iff_mem.mp hq))
  · rw [osRemove, if_neg hp] at h
    cases h

theorem osRemove_ok_absent {fs fs2 : FS} {p q : String}
    (h : osRemove fs p = .ok fs2) (hq : hasFile fs q = false) :
    hasFile fs2 q = false := by
  by_cases h2 : hasFile fs2 q
  · exact absurd (osRemove_ok_mono h h2) (by simp [hq])
  · simpa using h2

theorem hasFile_osMkdir (fs : FS) (d p : String) :
    hasFile (osMkdir fs d) p = hasFile fs p := rfl

theorem removeTemps_ok_before {fs fs2 : FS} (h : removeTemps fs = .ok fs2) :
    hasFile fs "envcounts.npy" = true ∧ hasFile fs "sink_ids.npy" = true ∧
    hasFile fs "source_ids.npy" = true := by
  unfold removeTemps at h
  split at h
  · cases h
  · rename_i fs3 h1
    split at h
    · cases h
    · rename_i fs4 h2
      exact ⟨osRemove_ok_hasFile h1,
        osRemove_ok_mono h1 (osRemove_ok_hasFile h2),
        osRemove_ok_mono h1 (osRemove_ok_mono h2 (osRemove_ok_hasFile h))⟩

theorem removeTemps_ok_after {fs fs2 : FS} (h : removeTemps fs = .ok fs2) :
    hasFile fs2 "envcounts.npy" = false ∧ hasFile fs2 "sink_ids.npy" = false ∧
    hasFile fs2 "source_ids.npy" = false := by
  unfold removeTemps at h
  split at h
  · cases h
  · rename_i fs3 h1
    split at h
    · cases h
    · rename_i fs4 h2
      exact ⟨osRemove_ok_absent h (osRemove_ok_absent h2 (osRemove_ok_not_self h1)),
        osRemove_ok_absent h (osRemove_ok_not_self h2),
        osRemove_ok_not_self h⟩

theorem diagBlock_ok_before {outputDir : String} {fs fsd : FS}
    (h : diagBlock outputDir fs = .ok fsd) :
    hasFile fs "envcounts.npy" = true ∧ hasFile fs "sink_ids.npy" = true ∧
    hasFile fs "source_ids.npy" = true := by
  unfold diagBlock npLoad at h
  simp only [hasFile_osMkdir] at h
  by_cases h1 : hasFile fs "envcounts.npy" = true
  · by_cases h2 : hasFile fs "sink_ids.npy" = true
    · by_cases h3 : hasFile fs "source_ids.npy" = true
      · exact ⟨h1, h2, h3⟩
      · rw [if_pos h1, if_pos h2, if_neg h3] at h
        cases h
    · rw [if_pos h1, if_neg h2] at h
      cases h
  · rw [if_neg h1] at h
    cases h

/-- Modelled from the spec: the seed-derived pseudo-random stream (spec
sections 5 and 9: an explicit, per-restart seeded generator; a 64-bit
linear congruential step). -/
def lcgNext (s : ℕ) : ℕ :=
  (6364136223846793005 * s + 1442695040888963407) % (2 ^ 64)

/-- Modelled from the spec: a sink sample's count vector expanded into its
multiset of individually labelled reads, one unit per observed count
(spec section 3, SinkInstance). -/
def expandReads (counts : List ℕ) : List ℕ :=
  (List.range counts.length).flatMap (fun i => List.replicate (counts.getD i 0) i)

/-- Recounts a multiset of reads (feature indices) back into a count
vector over a vocabulary of `v` features, preserving feature
identities. -/
def recount (v : ℕ) (reads : List ℕ) : List ℕ :=
  (List.range v).map (fun i => reads.count i)

/-- Left rotation of a list, used to realise the seeded subsampling
permutation. -/
def rotateBy (xs : List α) (k : ℕ) : List α :=
  xs.drop (k % xs.length) ++ xs.take (k % xs.length)

/-- Modelled from the spec: the Rarefaction Preprocessor (spec sections
4.1 and 8; the rarefaction code itself is outside the shipped sources).
A depth of 0 disables rarefaction (passthrough).  Otherwise the read
multiset is subsampled down to `depth` reads, without replacement by
default (failing with `InsufficientDepthError` when the sample's total
count is below the requested depth) or with replacement when configured
(drawing each of the `depth` reads independently from the read multiset,
which fails on an empty sample the way `np.random.choice` does). -/
def rarefy (seed : ℕ) (counts : List ℕ) (depth : ℕ) (withReplacement : Bool) :
    Except STError (List ℕ) :=
  if depth = 0 then .ok counts
  else
    let reads := expandReads counts
    if withReplacement then
      if reads.length = 0 then .error .valueError
      else .ok (recount counts.length
        ((List.range depth).map
          (fun i => reads.getD (lcgNext (seed + i) % reads.length) 0)))
    else
      if counts.sum < depth then .error .insufficientDepth
      else .ok (recount counts.length ((rotateBy reads (lcgNext seed)).take depth))

/- ----------------- rarefaction helper lemmas ----------------- -/

theorem sum_indicator_range (V a : ℕ) (h : a < V) :
    ((List.range V).map (fun i => if (a == i) = true then 1 else 0)).sum = 1 := by
  induction V with
  | zero => omega
  | succ V ih =>
    rw [List.range_succ, List.map_append, List.sum_append]
    by_cases hav : a < V
    · rw [ih hav]
      have hne : a ≠ V := by omega
      simp [hne]
    · have hav2 : a = V := by omega
      subst hav2
      have h0 : ((List.range a).map
          (fun i => if (a == i) = true then 1 else 0)).sum = 0 := by
        apply List.sum_eq_zero
        intro x hx
        simp only [List.mem_map] at hx
        obtain ⟨i, hi, hix⟩ := hx
        have hia : i < a := List.mem_range.mp hi
        have hne : (a == i) = false := by
          simp only [beq_eq_false_iff_ne]
          omega
        rw [hne] at hix
        simpa using hix.symm
      rw [h0]
      simp

theorem sum_range_count (V : ℕ) (l : List ℕ) (h : ∀ x ∈ l, x < V) :
    ((List.range V).map (fun i => l.count i)).sum = l.length := by
  induction l with
  | nil => simp
  | cons a t ih =>
    simp only [List.count_cons, List.sum_map_add]
    rw [ih (fun x hx => h x (List.mem_cons_of_mem a hx))]
    rw [sum_indicator_range V a (h a (List.mem_cons_self a t))]
    simp [Nat.add_comm]

theorem recount_sum (V : ℕ) (l : List ℕ) (h : ∀ x ∈ l, x < V) :
    (recount V l).sum = l.length :=
  sum_range_count V l h

theorem recount_length (V : ℕ) (l : List ℕ) : (recount V l).length = V := by
  simp [recount]

theorem getD_range_map (l : List α) (d : α) :
    (List.range l.length).map (fun j => l.getD j d) = l := by
  apply List.ext_getElem
  · simp
  · intro i h1 h2
    simp only [List.getElem_map, List.getElem_range]
    exact List.getD_eq_getElem l d h2

theorem expandReads_length (counts : List ℕ) :
    (expandReads counts).length = counts.sum := by
  rw [expandReads, List.length_flatMap]
  have : (List.map (List.length ∘ fun i => List.replicate (counts.getD i 0) i)
      (List.range counts.length)) =
      (List.range counts.length).map (fun j => counts.getD j 0) := by
    apply List.map_congr_left
    intro i _
    simp [List.length_replicate]
  rw [this, getD_range_map]

theorem expandReads_mem_lt {counts : List ℕ} {r : ℕ}
    (h : r ∈ expandReads counts) : r < counts.length := by
  rw [expandReads, List.mem_flatMap] at h
  obtain ⟨i, hi, hr⟩ := h
  have := List.eq_of_mem_replicate hr
  subst this
  exact List.mem_range.mp hi

theorem rotateBy_length (xs : List α) (k : ℕ) :
    (rotateBy xs k).length = xs.length := by
  rw [rotateBy, List.length_append, List.length_drop, List.length_take]
  rcases Nat.eq_zero_or_pos xs.length with h0 | hpos
  · simp [h0]
  · have : k % xs.length < xs.length := Nat.mod_lt k hpos
    omega

theorem rotateBy_subset (xs : List α) (k : ℕ) :
    ∀ x ∈ rotateBy xs k, x ∈ xs := by
  intro x hx
  rw [rotateBy, List.mem_append] at hx
  rcases hx with hx | hx
  · exact (List.drop_sublist _ _).subset hx
  · exact (List.take_sublist _ _).subset hx

/-- Claim C6: for every input count vector and requested depth, a rarefied
count vector produced by the Rarefaction Preprocessor has total count
exactly the requested depth when the depth is positive, with feature
identities (the vocabulary length) preserved, and is the unchanged input
vector when the depth is 0. -/
theorem rarefy_total_is_depth (seed : ℕ) (counts : List ℕ) (depth : ℕ)
    (rep : Bool) (out : List ℕ)
    (hok : rarefy seed counts depth rep = .ok out) :
    (0 < depth → out.sum = depth ∧ out.length = counts.length) ∧
    (depth = 0 → out = counts) := by
  unfold rarefy at hok
  by_cases hd : depth = 0
  · rw [if_pos hd] at hok
    cases hok
    exact ⟨fun hlt => absurd hd (by omega), fun _ => rfl⟩
  · rw [if_neg hd] at hok
    refine ⟨fun _ => ?_, fun h0 => absurd h0 hd⟩
    cases rep with
    | true =>
      rw [if_pos rfl] at hok
      by_cases hz : (expandReads counts).length = 0
      · rw [if_pos hz] at hok
        cases hok
      · rw [if_neg hz] at hok
        cases hok
        constructor
        · rw [recount_sum]
          · simp
          · intro x hx
            simp only [List.mem_map] at hx
            obtain ⟨i, _, hix⟩ := hx
            have hidx : lcgNext (seed + i) % (expandReads counts).length <
                (expandReads counts).length := Nat.mod_lt _ (by omega)
            rw [List.getD_eq_getElem _ _ hidx] at hix
            exact hix ▸ expandReads_mem_lt (List.getElem_mem hidx)
        · exact recount_length _ _
    | false =>
      rw [if_neg (by simp)] at hok
      by_cases hs : counts.sum < depth
      · rw [if_pos hs] at hok
        cases hok
      · rw [if_neg hs] at hok
        cases hok
        constructor
        · rw [recount_sum]
          · rw [List.length_take, rotateBy_length, expandReads_length]
            omega
          · intro x hx
            exact expandReads_mem_lt
              (rotateBy_subset _ _ x ((List.take_sublist _ _).subset hx))
        · exact recount_length _ _

/-- Witness for C6: rarefying the concrete vector `[2, 3]` down to depth 4
without replacement yields `[1, 3]`, whose total is 4 over the same
two-feature vocabulary. -/
theorem rarefy_total_is_depth_witness :
    (0 < 4 → ([1, 3] : List ℕ).sum = 4 ∧
      ([1, 3] : List ℕ).length = ([2, 3] : List ℕ).length) ∧
    ((4 : ℕ) = 0 → ([1, 3] : List ℕ) = [2, 3]) :=
  rarefy_total_is_depth 0 [2, 3] 4 false [1, 3] (by rfl)

/-- Claim C7: the Rarefaction Preprocessor raises `InsufficientDepthError`
if and only if replacement is disabled and the sample's total count is
strictly below the requested positive depth. -/
theorem rarefy_insufficient_iff (seed : ℕ) (counts : List ℕ) (depth : ℕ)
    (rep : Bool) :
    rarefy seed counts depth rep = .error .insufficientDepth ↔
      (rep = false ∧ 0 < depth ∧ counts.sum < depth) := by
  unfold rarefy
  by_cases hd : depth = 0
  · rw [if_pos hd]
    simp [hd]
  · rw [if_neg hd]
    cases rep with
    | true =>
      rw [if_pos rfl]
      by_cases hz : (expandReads counts).length = 0
      · rw [if_pos hz]
        simp
      · rw [if_neg hz]
        simp
    | false =>
      rw [if_neg (by simp)]
      by_cases hs : counts.sum < depth
      · rw [if_pos hs]
        simp [hs]
        omega
      · rw [if_neg hs]
        simp [hs]

/-- Modelled from the spec: the per-candidate quantities entering the
conditional probability of one read (spec section 4.3, resampling sweep):
`alpha` is the Dirichlet prior weight of the candidate, `nk` the number of
this sink's reads currently assigned to it (excluding the resampled
read), `ck` the count of the read's feature attributed to it (pooled
source counts plus currently assigned sink reads, excluding the resampled
read) and `ctot` the total count attributed to it. -/
structure Candidate where
  alpha : ℚ
  nk : ℕ
  ck : ℕ
  ctot : ℕ
deriving DecidableEq

/-- Modelled from the spec: the unnormalised conditional probability
`P(z_i = k) ∝ (n_k + alpha_k) (c_k,w + beta) / (C_k + beta V)` for each
candidate source (spec section 4.3, resampling sweep). -/
def candProbs (beta : ℚ) (V : ℕ) (cands : List Candidate) : List ℚ :=
  cands.map (fun c =>
    ((c.nk : ℚ) + c.alpha) * (((c.ck : ℚ) + beta) / ((c.ctot : ℚ) + beta * V)))

/-- Walks the cumulative unnormalised weights to select the drawn
category. -/
def pickIndex : List ℚ → ℚ → ℕ
  | [], _ => 0
  | p :: rest, x => if x < p then 0 else pickIndex rest (x - p) + 1

/-- Modelled from the spec: drawing the new assignment `z_i` from the
categorical distribution over the candidates; the degenerate case where
all candidate probabilities collapse to zero fails with
`DegenerateModelError` instead of producing an undefined result (spec
sections 4.3 and 8). -/
def drawFrom (probs : List ℚ) (r : ℕ) : Except STError ℕ :=
  if probs.sum ≤ 0 then .error .degenerateModel
  else .ok (pickIndex probs (((r % 1000000 : ℕ) : ℚ) * probs.sum / 1000000))

/-- Modelled from the spec: a retained Draw records the per-source
proportions `n_k / N` (spec section 4.3, step 5). -/
def drawProps (n : ℕ) (counts : List ℕ) : List ℚ :=
  counts.map (fun c : ℕ => (c : ℚ) / n)

/-- Modelled from the spec: the Result Aggregator's posterior mean per
source over the retained draws of one sink (spec section 4.6) — the
sink's row of the MixingProportionResult mean matrix. -/
def postMean (k : ℕ) (draws : List (List ℚ)) : List ℚ :=
  (List.range k).map
    (fun j => (draws.map (fun d => d.getD j 0)).sum / draws.length)

theorem list_sum_comm (xs : List α) (ys : List β) (f : α → β → ℚ) :
    (xs.map (fun a => (ys.map (f a)).sum)).sum
      = (ys.map (fun b => (xs.map (fun a => f a b)).sum)).sum := by
  induction xs with
  | nil => simp
  | cons a t ih =>
    simp only [List.map_cons, List.sum_cons, ih, List.sum_map_add]

theorem drawProps_sum (n : ℕ) (c : List ℕ) :
    (drawProps n c).sum = (c.sum : ℚ) / n := by
  induction c with
  | nil => simp [drawProps]
  | cons a t ih =>
    simp only [drawProps, List.map_cons, List.sum_cons] at ih ⊢
    rw [ih]
    push_cast
    ring

theorem sum_map_div_const (l : List α) (f : α → ℚ) (r : ℚ) :
    (l.map (fun b => f b / r)).sum = (l.map f).sum / r := by
  induction l with
  | nil => simp
  | cons a t ih =>
    simp only [List.map_cons, List.sum_cons, ih]
    ring

/- --------------- numpy array_split and the diagnostics loop --------------- -/

/-- Sizes of the sections produced by numpy's `np.array_split` on a 1-D
array of length `l` split into `n` sections: the first `l mod n` sections
have size `l / n + 1` and the remaining ones have size `l / n`. -/
def splitSizes (l n : ℕ) : List ℕ :=
  (List.range n).map (fun i => if i < l % n then l / n + 1 else l / n)

/-- Cuts a list into consecutive chunks of the given sizes. -/
def takeDropChunks : List α → List ℕ → List (List α)
  | _, [] => []
  | xs, s :: ss => xs.take s :: takeDropChunks (xs.drop s) ss

/-- `np.array_split` on a 1-D array: always returns exactly `n`
sections. -/
def arraySplit (xs : List α) (n : ℕ) : List (List α) :=
  takeDropChunks xs (splitSizes xs.length n)

/-- `np.cumsum`: running cumulative sums. -/
def cumSumN (xs : List ℕ) : List ℕ :=
  (List.range xs.length).map (fun i => (xs.take (i + 1)).sum)

/-- Embeds the per-(sink, source) diagnostics segmentation of
`gibbs.py` lines 250-259: the recorded trajectory column is split with
`np.array_split(source_array, draws_per_restart)` and `np.cumsum` is
taken within each resulting segment. -/
def diagSegments (traj : List ℕ) (drawsPerRestart : ℕ) : List (List ℕ) :=
  (arraySplit traj drawsPerRestart).map cumSumN

theorem takeDropChunks_length (xs : List α) (ss : List ℕ) :
    (takeDropChunks xs ss).length = ss.length := by
  induction ss generalizing xs with
  | nil => rfl
  | cons s t ih => simp [takeDropChunks, ih]

theorem arraySplit_length (xs : List α) (n : ℕ) :
    (arraySplit xs n).length = n := by
  rw [arraySplit, takeDropChunks_length, splitSizes]
  simp

/- ------------------- spec-modelled full pipeline ------------------- -/

/-- Modelled from the spec: a sample's role in the metadata (spec
section 3, SampleMetadata). -/
inductive Role where
  | source (category : String)
  | sink
deriving DecidableEq

/-- Modelled from the spec: the run's input — the feature table (sample
identifier to count vector over the shared vocabulary) and the sample
metadata (spec sections 3 and 6). -/
structure STInput where
  table : List (String × List ℕ)
  metadata : List (String × Role)
deriving DecidableEq

/-- Modelled from the spec: the recognised configuration options of the
sampler (spec section 6). -/
structure STConfig where
  alpha1 : ℚ
  alpha2 : ℚ
  beta : ℚ
  sourceDepth : ℕ
  sinkDepth : ℕ
  restarts : ℕ
  drawsPerRestart : ℕ
  burnin : ℕ
  delay : ℕ
  withReplacement : Bool
deriving DecidableEq

/-- Count vector of a sample in the feature table (empty when the sample
is missing). -/
def sampleCounts (inp : STInput) (sid : String) : List ℕ :=
  ((inp.table.find? (fun p => p.1 == sid)).map Prod.snd).getD []

/-- The source categories in metadata order, without duplicates. -/
def sourceCategories (md : List (String × Role)) : List String :=
  (md.filterMap (fun p => match p.2 with
    | Role.source c => some c
    | Role.sink => none)).dedup

/-- The sample identifiers belonging to a source category. -/
def categoryMembers (md : List (String × Role)) (cat : String) : List String :=
  (md.filter (fun p => p.2 == Role.source cat)).map Prod.fst

/-- The sink sample identifiers in metadata order. -/
def sinkIds (md : List (String × Role)) : List String :=
  (md.filter (fun p => p.2 == Role.sink)).map Prod.fst

/-- Elementwise sum of two count vectors. -/
def addVec : List ℕ → List ℕ → List ℕ
  | [], ys => ys
  | xs, [] => xs
  | x :: xs, y :: ys => (x + y) :: addVec xs ys

/-- Modelled from the spec: the Source Environment Model pools the
rarefied counts of all source samples sharing a category (spec sections
4.1 and 4.2), with the subsampling stream derived from the run seed. -/
def poolCategory (inp : STInput) (cfg : STConfig) (seed : ℕ) (cat : String) :
    Except STError (List ℕ) :=
  Prod.fst <$> (categoryMembers inp.metadata cat).foldlM
    (fun st sid => do
      let r ← rarefy st.2 (sampleCounts inp sid) cfg.sourceDepth
        cfg.withReplacement
      pure (addVec st.1 r, lcgNext st.2))
    (([] : List ℕ), lcgNext seed)

/-- Number of reads other than read `i` currently assigned to source
`k`. -/
def countAssigned (assign : List ℕ) (i k : ℕ) : ℕ :=
  (assign.enum.filter (fun p => (p.1 != i) && (p.2 == k))).length

/-- Number of reads other than read `i` carrying feature `w` and
currently assigned to source `k`. -/
def countAssignedFeat (reads assign : List ℕ) (i k w : ℕ) : ℕ :=
  ((reads.zip assign).enum.filter
    (fun p => (p.1 != i) && (p.2.2 == k) && (p.2.1 == w))).length

/-- Pooled count of feature `w` under known source `k`. -/
def pooledFeat (srcs : List (List ℕ)) (k w : ℕ) : ℕ :=
  (srcs.getD k []).getD w 0

/-- Total pooled count under known source `k`. -/
def pooledTot (srcs : List (List ℕ)) (k : ℕ) : ℕ :=
  (srcs.getD k []).sum

/-- Modelled from the spec: the candidate quantities for resampling read
`i` (spec section 4.3 step 2): the `K` known sources carry `alpha1` and
their pooled counts, the unknown source (index `K`) carries `alpha2` and
no pooled counts; current sink assignments enter the counts with read `i`
excluded. -/
def mkCands (srcs : List (List ℕ)) (cfg : STConfig) (reads assign : List ℕ)
    (i : ℕ) : List Candidate :=
  (List.range (srcs.length + 1)).map (fun k =>
    { alpha := if k < srcs.length then cfg.alpha1 else cfg.alpha2
      nk := countAssigned assign i k
      ck := (if k < srcs.length then pooledFeat srcs k (reads.getD i 0) else 0)
        + countAssignedFeat reads assign i k (reads.getD i 0)
      ctot := (if k < srcs.length then pooledTot srcs k else 0)
        + countAssigned assign i k })

/-- One resampling step for read `i` (spec section 4.3 step 2): draw a
new assignment from the conditional distribution and update the
assignment vector; the pseudo-random stream advances with each draw. -/
def resampleRead (srcs : List (List ℕ)) (cfg : STConfig) (reads : List ℕ)
    (V : ℕ) (st : List ℕ × ℕ) (i : ℕ) : Except STError (List ℕ × ℕ) := do
  let rng := lcgNext st.2
  let k ← drawFrom (candProbs cfg.beta V (mkCands srcs cfg reads st.1 i)) rng
  pure (st.1.set i k, rng)

/-- One full resampling sweep over all reads of the sink (spec section
4.3 step 2). -/
def sweep (srcs : List (List ℕ)) (cfg : STConfig) (reads : List ℕ) (V : ℕ)
    (st : List ℕ × ℕ) : Except STError (List ℕ × ℕ) :=
  (List.range reads.length).foldlM (resampleRead srcs cfg reads V) st

/-- Iterates a fallible step `n` times. -/
def iterM (f : σ → Except STError σ) : ℕ → σ → Except STError σ
  | 0, s => .ok s
  | n + 1, s => (f s).bind (iterM f n)

/-- Collects the retained draws of one chain, `delay` thinning sweeps
before each retained draw (spec section 4.3 steps 4 and 5); each retained
draw records the per-source assignment counts. -/
def collectDraws (srcs : List (List ℕ)) (cfg : STConfig) (reads : List ℕ)
    (V : ℕ) : ℕ → (List ℕ × ℕ) → Except STError (List (List ℕ))
  | 0, _ => .ok []
  | d + 1, st => do
    let st2 ← iterM (sweep srcs cfg reads V) cfg.delay st
    let rest ← collectDraws srcs cfg reads V d st2
    pure (recount (srcs.length + 1) st2.1 :: rest)

/-- Modelled from the spec: one Gibbs Chain for one sink (spec section
4.3): seed-derived uniform random initialization over the `K + 1`
sources, `burnin` discarded sweeps, then thinned collection of
`draws_per_restart` retained draws. -/
def runChain (srcs : List (List ℕ)) (cfg : STConfig) (reads : List ℕ)
    (V : ℕ) (seed : ℕ) : Except STError (List (List ℕ)) := do
  let init := (List.range reads.length).map
    (fun i => lcgNext (seed + i) % (srcs.length + 1))
  let st2 ← iterM (sweep srcs cfg reads V) cfg.burnin (init, lcgNext seed)
  collectDraws srcs cfg reads V cfg.drawsPerRestart st2

/-- Modelled from the spec: the Restart Orchestrator runs `restarts`
independent chains for one sink, each chain seeded from its own value
derived from the fixed run seed (spec sections 4.4 and 5), and
concatenates their retained draws. -/
def runRestarts (srcs : List (List ℕ)) (cfg : STConfig) (reads : List ℕ)
    (V : ℕ) (seed : ℕ) : Except STError (List (List ℕ)) :=
  (List.range cfg.restarts).foldlM
    (fun acc r => do
      let ds ← runChain srcs cfg reads V (lcgNext (seed + 1000003 * (r + 1)))
      pure (acc ++ ds))
    []

/-- Modelled from the spec: per-source variance of the retained draws;
the reported standard deviation is its pointwise square root, hence
determined by it (spec section 4.6). -/
def postVar (k : ℕ) (draws : List (List ℚ)) : List ℚ :=
  (List.range k).map (fun j =>
    (draws.map (fun d => (d.getD j 0 - (postMean k draws).getD j 0) ^ 2)).sum
      / draws.length)

/-- Modelled from the spec: the MixingProportionResult — the sinks ×
sources posterior mean matrix with the parallel dispersion matrix (spec
section 3). -/
structure MixingResult where
  meanMatrix : List (List ℚ)
  varMatrix : List (List ℚ)
deriving DecidableEq

/-- Modelled from the spec: the full pipeline run with a fixed random
seed, an input feature table plus metadata, and a configuration (spec
sections 2 through 6): rarefy and pool the sources per category, rarefy
each sink, expand it into reads, run the Restart Orchestrator, and
aggregate the retained draws of each sink into its posterior mean and
variance rows.  Every random choice derives from the seed through the
explicit `lcgNext` stream. -/
def fullRun (seed : ℕ) (inp : STInput) (cfg : STConfig) :
    Except STError MixingResult := do
  let srcs ← (sourceCategories inp.metadata).mapM (poolCategory inp cfg seed)
  let vocab := (inp.table.map (fun p => p.2.length)).foldl max 0
  let rows ← (sinkIds inp.metadata).enum.mapM (fun p => do
    let raref ← rarefy (lcgNext (seed + 31 * (p.1 + 1))) (sampleCounts inp p.2)
      cfg.sinkDepth cfg.withReplacement
    let reads := expandReads raref
    let countDraws ← runRestarts srcs cfg reads vocab
      (lcgNext (seed + 97 * (p.1 + 1)))
    let props := countDraws.map (drawProps reads.length)
    pure (postMean (srcs.length + 1) props, postVar (srcs.length + 1) props))
  pure { meanMatrix := rows.map Prod.fst, varMatrix := rows.map Prod.snd }

/-- A concrete two-sample input used to exercise the pipeline. -/
def exampleInput : STInput :=
  { table := [("src1", [3, 1]), ("snk1", [2, 2])]
    metadata := [("src1", Role.source "A"), ("snk1", Role.sink)] }

/-- A concrete configuration used to exercise the pipeline. -/
def exampleConfig : STConfig :=
  { alpha1 := 1, alpha2 := 1 / 10, beta := 1 / 10, sourceDepth := 0,
    sinkDepth := 0, restarts := 2, drawsPerRestart := 1, burnin := 1,
    delay := 1, withReplacement := false }

/- ------------------------- claim theorems ------------------------- -/

/-- Claim C1: for every completed run and every sink, the posterior mean
mixing-proportion row over all sources (known plus unknown) sums to 1:
whenever the retained draws of a sink each record per-source assignment
counts over the same `K` sources totalling the sink's `N` reads, the
aggregated mean row of the MixingProportionResult sums to exactly 1. -/
theorem mean_row_sums_to_one (K N : ℕ) (countsList : List (List ℕ))
    (hne : countsList ≠ [])
    (hlen : ∀ c ∈ countsList, c.length = K)
    (hsum : ∀ c ∈ countsList, c.sum = N)
    (hN : 0 < N) :
    (postMean K (countsList.map (drawProps N))).sum = 1 := by
  have hDpos : 0 < countsList.length := List.length_pos.mpr hne
  have hNQ : (N : ℚ) ≠ 0 := Nat.cast_ne_zero.mpr (by omega)
  set draws := countsList.map (drawProps N) with hdraws
  have hD : draws.length = countsList.length := List.length_map _ _
  have hdsum : ∀ d ∈ draws, d.sum = 1 := by
    intro d hd
    rw [hdraws] at hd
    simp only [List.mem_map] at hd
    obtain ⟨c, hcmem, hcd⟩ := hd
    rw [← hcd, drawProps_sum, hsum c hcmem]
    exact div_self hNQ
  have hdlen : ∀ d ∈ draws, d.length = K := by
    intro d hd
    rw [hdraws] at hd
    simp only [List.mem_map] at hd
    obtain ⟨c, hcmem, hcd⟩ := hd
    rw [← hcd]
    unfold drawProps
    rw [List.length_map]
    exact hlen c hcmem
  unfold postMean
  rw [sum_map_div_const (List.range K)
    (fun j => (draws.map (fun d => d.getD j 0)).sum) (draws.length : ℚ)]
  rw [list_sum_comm (List.range K) draws (fun j d => d.getD j 0)]
  have hmap : draws.map
      (fun d => ((List.range K).map (fun j => d.getD j 0)).sum)
      = draws.map (fun _ => (1 : ℚ)) := by
    apply List.map_congr_left
    intro d hd
    rw [← hdlen d hd, getD_range_map]
    exact hdsum d hd
  rw [hmap]
  simp only [List.map_const', List.sum_replicate, nsmul_eq_mul, mul_one, hD]
  exact div_self (Nat.cast_ne_zero.mpr (by omega))

/-- Witness for C1: two concrete draws over two sources with three reads
each; the aggregated mean row sums to 1. -/
theorem mean_row_sums_to_one_witness :
    (postMean 2 (([[2, 1], [1, 2]] : List (List ℕ)).map (drawProps 3))).sum
      = 1 :=
  mean_row_sums_to_one 2 3 [[2, 1], [1, 2]] (by simp)
    (by intro c hc; fin_cases hc <;> rfl)
    (by intro c hc; fin_cases hc <;> rfl) (by omega)

/-- Claim C8: when `beta = 0` and a sink read carries a feature whose
count attributed to every candidate source is zero, every candidate's
conditional probability is exactly 0 and the Gibbs Chain raises
`DegenerateModelError` instead of producing an undefined result. -/
theorem beta_zero_absent_degenerate (beta : ℚ) (V : ℕ)
    (cands : List Candidate) (r : ℕ)
    (hb : beta = 0) (hc : ∀ c ∈ cands, c.ck = 0) :
    drawFrom (candProbs beta V cands) r = .error .degenerateModel := by
  subst hb
  have hz : ∀ p ∈ candProbs 0 V cands, p = 0 := by
    intro p hp
    simp only [candProbs, List.mem_map] at hp
    obtain ⟨c, hcmem, hcp⟩ := hp
    rw [← hcp, hc c hcmem]
    simp
  have hsum : (candProbs 0 V cands).sum = 0 := List.sum_eq_zero hz
  unfold drawFrom
  rw [hsum]
  simp

/-- Witness for C8: two concrete candidate sources, both with zero count
of the read's feature, under `beta = 0`. -/
theorem beta_zero_absent_degenerate_witness :
    drawFrom (candProbs 0 3 [⟨1, 2, 0, 5⟩, ⟨1 / 10, 3, 0, 0⟩]) 7 =
      .error .degenerateModel :=
  beta_zero_absent_degenerate 0 3 [⟨1, 2, 0, 5⟩, ⟨1 / 10, 3, 0, 0⟩] 7 rfl
    (by intro c hc; fin_cases hc <;> rfl)

/-- Claim C2: two runs with an identical fixed random seed, identical
input feature table and metadata, and identical configuration produce
identical mixing-proportion mean and dispersion matrices: every random
choice of the pipeline derives from the seed through the explicit
generator stream, so the result is a pure function of seed, input and
configuration. -/
theorem identical_runs_identical_results (s1 s2 : ℕ) (i1 i2 : STInput)
    (c1 c2 : STConfig) (hs : s1 = s2) (hi : i1 = i2) (hc : c1 = c2) :
    fullRun s1 i1 c1 = fullRun s2 i2 c2 := by
  subst hs
  subst hi
  subst hc
  rfl

/-- Witness for C2: the pipeline run twice at the concrete seed 1, the
concrete example input and configuration, yields the same result. -/
theorem identical_runs_identical_results_witness :
    fullRun 1 exampleInput exampleConfig = fullRun 1 exampleInput exampleConfig :=
  identical_runs_identical_results 1 1 exampleInput exampleInput
    exampleConfig exampleConfig rfl rfl rfl

/-- Claim C9 divergence, evaluated at the failing input: with
`draws_per_restart = 1`, `restarts = 2` and a recorded two-draw
trajectory `[3, 5]`, the diagnostics segmentation of the code
(`np.array_split(source_array, draws_per_restart)`, `gibbs.py` line 251)
yields one single segment carrying the cumulative sum of the whole
trajectory — not the `restarts = 2` per-restart segments the claim
requires; in general the number of segments always equals
`draws_per_restart`. -/
theorem diag_split_uses_draws_not_restarts :
    diagSegments [3, 5] 1 = [[3, 8]] ∧
    (diagSegments [3, 5] 1).length = 1 ∧
    (1 : ℕ) ≠ 2 ∧
    (∀ (traj : List ℕ) (d : ℕ), (diagSegments traj d).length = d) := by
  refine ⟨rfl, rfl, by omega, ?_⟩
  intro traj d
  rw [diagSegments, List.length_map, arraySplit_length]

/-- Claim C3 counterexample: at the concrete configuration with
diagnostics requested and output directory `out/`, the embedded `gibbs`
command obtains the diagnostics trace by reading the intermediate files
`envcounts.npy`, `sink_ids.npy` and `source_ids.npy` from disk, so the
hand-off from the sampler to the visualization stage does go through
persisted on-disk state, contrary to the claim that it uses only an
explicit in-memory data structure with no files on disk. -/
theorem c3_counterexample_disk_handoff :
    Eff.readE "envcounts.npy" ∈ diagHandoffEffects "out/" true ∧
    Eff.readE "sink_ids.npy" ∈ diagHandoffEffects "out/" true ∧
    Eff.readE "source_ids.npy" ∈ diagHandoffEffects "out/" true := by
  refine ⟨?_, ?_, ?_⟩ <;> simp [diagHandoffEffects]

/-- Claim C3 (amended): when diagnostics are requested, the diagnostics
trace is handed from the sampler to the visualization stage through the
intermediate disk files `envcounts.npy`, `sink_ids.npy` and
`source_ids.npy`, which the command loads from disk and removes at the
end of the run; the hand-off is not an in-memory-only structure. -/
theorem c3_amended_file_handoff (outputDir : String) :
    (Eff.readE "envcounts.npy" ∈ diagHandoffEffects outputDir true ∧
     Eff.readE "sink_ids.npy" ∈ diagHandoffEffects outputDir true ∧
     Eff.readE "source_ids.npy" ∈ diagHandoffEffects outputDir true) ∧
    (Eff.removeE "envcounts.npy" ∈ diagHandoffEffects outputDir true ∧
     Eff.removeE "sink_ids.npy" ∈ diagHandoffEffects outputDir true ∧
     Eff.removeE "source_ids.npy" ∈ diagHandoffEffects outputDir true) := by
  refine ⟨⟨?_, ?_, ?_⟩, ⟨?_, ?_, ?_⟩⟩ <;> simp [diagHandoffEffects]

/-- Claim C4 counterexample: at the concrete input where validation
detects a `TableMismatchError` on an empty file system with output
directory `out`, the run aborts before any chain starts, yet the output
directory `out` (created by `os.mkdir(output_dir)` at `gibbs.py` line 189,
before validation) exists after the abort — contradicting the claim that
no output files or directories exist after the abort. -/
theorem c4_counterexample_outdir_persists :
    gibbsOpen ⟨[], []⟩ "out" (some STError.tableMismatch) =
      (some STError.tableMismatch, FS.mk [] ["out"], false) ∧
    hasDir (FS.mk [] ["out"]) "out" = true := by
  exact ⟨rfl, by decide⟩

/-- Claim C4 (amended): a validation error is raised before any chain
starts and before any result file is written, but the output directory
created by `os.mkdir(output_dir)` at the start of the command remains in
existence after the abort. -/
theorem c4_amended_abort_before_chains (fs : FS) (d : String) (e : STError) :
    gibbsOpen fs d (some e) = (some e, osMkdir fs d, false) ∧
    hasDir (osMkdir fs d) d = true ∧
    (osMkdir fs d).files = fs.files := by
  refine ⟨rfl, ?_, rfl⟩
  simp [hasDir, osMkdir]

/-- Claim C5: with the `no_heatmap` flag at its default value (`True`),
the plotting stage calls `graphs.ST_heatmap(keep_unknowns=...)`, which
raises `TypeError` because `ST_heatmap` declares no parameter named
`keep_unknowns` (its keyword parameters being exactly `unknowns`, `annot`,
`xlabel`, `ylabel`, `vmax`); likewise the `ST_paired_heatmap` call site
passes `keep_unknowns` and `legend`, neither of which is declared, and the
`ST_Stacked_bar` call site passes the undeclared `keep_unknowns`. -/
theorem c5_plot_calls_raise_typeerror :
    plotStage noHeatmapDefault false false =
      .error (.typeError "keep_unknowns") ∧
    heatmapParams = ["unknowns", "annot", "xlabel", "ylabel", "vmax"] ∧
    heatmapParams.contains "keep_unknowns" = false ∧
    kwBind pairedHeatmapParams pairedCallKwargs =
      .error (.typeError "keep_unknowns") ∧
    pairedHeatmapParams.contains "keep_unknowns" = false ∧
    pairedHeatmapParams.contains "legend" = false ∧
    kwBind stackedBarParams stackedCallKwargs =
      .error (.typeError "keep_unknowns") ∧
    stackedBarParams.contains "keep_unknowns" = false := by
  exact ⟨rfl, rfl, rfl, rfl, rfl, rfl, rfl, rfl⟩

/-- Claim C10: the tail of every `gibbs` command run deletes
`envcounts.npy`, `sink_ids.npy` and `source_ids.npy` from the working
directory unconditionally — whether or not the diagnostics flag was
passed — so its successful completion requires all three files to exist
and leaves none of them behind. -/
theorem c10_unconditional_temp_cleanup (outputDir : String)
    (diagnostics : Bool) (fs fs2 : FS)
    (h : gibbsFinalize outputDir diagnostics fs = .ok fs2) :
    (hasFile fs "envcounts.npy" = true ∧ hasFile fs "sink_ids.npy" = true ∧
     hasFile fs "source_ids.npy" = true) ∧
    (hasFile fs2 "envcounts.npy" = false ∧
     hasFile fs2 "sink_ids.npy" = false ∧
     hasFile fs2 "source_ids.npy" = false) := by
  unfold gibbsFinalize at h
  cases diagnostics with
  | false =>
    rw [if_neg (by simp)] at h
    exact ⟨removeTemps_ok_before h, removeTemps_ok_after h⟩
  | true =>
    rw [if_pos rfl] at h
    split at h
    · cases h
    · rename_i fsd hd
      exact ⟨diagBlock_ok_before hd, removeTemps_ok_after h⟩

/-- Witness for C10: a concrete successful finalize, without the
diagnostics flag, starting from a file system holding exactly the three
temp files. -/
theorem c10_unconditional_temp_cleanup_witness :
    (hasFile ⟨["envcounts.npy", "sink_ids.npy", "source_ids.npy"], []⟩
       "envcounts.npy" = true ∧
     hasFile ⟨["envcounts.npy", "sink_ids.npy", "source_ids.npy"], []⟩
       "sink_ids.npy" = true ∧
     hasFile ⟨["envcounts.npy", "sink_ids.npy", "source_ids.npy"], []⟩
       "source_ids.npy" = true) ∧
    (hasFile ⟨[], []⟩ "envcounts.npy" = false ∧
     hasFile ⟨[], []⟩ "sink_ids.npy" = false ∧
     hasFile ⟨[], []⟩ "source_ids.npy" = false) :=
  c10_unconditional_temp_cleanup "out/" false
    ⟨["envcounts.npy", "sink_ids.npy", "source_ids.npy"], []⟩ ⟨[], []⟩
    (by rfl)

end SourceTracker
